import Mathlib

/-!
Verification development for the geodub timed dub-track synthesis engine.

Shallow embedding of the TypeScript sources:
- `src/services/tts.ts` (segment synthesis loop, timing resolver, compositor cleanup),
- `src/services/gemini.ts` (translation mapper `translateTranscript`),
- `src/services/youtube.ts` (caption segment merger in `getYouTubeTranscript`),
- `src/app/api/translate-stream/route.ts` (pipeline stage 4),
- `src/app/api/history/[videoId]/route.ts` (history DELETE).

JavaScript numbers are modelled as exact rationals (`ℚ`); file-system and
external-process effects (ffprobe, ffmpeg, TTS provider) are modelled by an
explicit environment of oracles, and fallible code returns `Except`.
-/

/-- A transcript segment `{start, end, text}` (field `end` of the source is
`endTime` here because `end` is a Lean keyword). -/
structure TranscriptSegment where
  start : ℚ
  endTime : ℚ
  text : String
deriving DecidableEq, Repr

/- ### Segment Merger — `getYouTubeTranscript`, youtube service, merge loop

The source iterates over the parsed (non-empty) segments keeping a current
segment; an incoming segment is merged into it when
`seg.start - currentSegment.end < 0.3` and `seg.end - currentSegment.start < 10`,
otherwise the current segment is pushed and the incoming one starts a new unit.
-/

/-- The merge loop body: `currentSegment` is the accumulator. -/
def mergeLoop (currentSegment : TranscriptSegment) :
    List TranscriptSegment → List TranscriptSegment
  | [] => [currentSegment]
  | seg :: rest =>
    let gap := seg.start - currentSegment.endTime
    let combinedDuration := seg.endTime - currentSegment.start
    if gap < 3/10 ∧ combinedDuration < 10 then
      mergeLoop { currentSegment with
                    endTime := seg.endTime,
                    text := currentSegment.text ++ " " ++ seg.text } rest
    else
      currentSegment :: mergeLoop seg rest

/-- The merged segment list as computed by the source (`mergedSegments`): the first segment seeds the
accumulator (`currentSegment = {...seg}`), the trailing accumulator is pushed. -/
def mergeSegments : List TranscriptSegment → List TranscriptSegment
  | [] => []
  | seg :: rest => mergeLoop seg rest

/-- Join a list of texts with single separating spaces (used only to state
that merging preserves every fragment's text once, in order). -/
def joinTexts : List String → String
  | [] => ""
  | [t] => t
  | t :: rest => t ++ " " ++ joinTexts rest

/- ### Translation Mapper — `translateTranscript`, gemini service -/

/-- One element of the model's JSON output: `{"index": n, "text": s}`. -/
structure Translation where
  index : Int
  text : String
deriving DecidableEq, Repr

/-- The mapping loop of `translateTranscript` (gemini.ts lines 148-161).
The guard is `originalIndex !== undefined && originalIndex < segments.length
&& !usedIndices.has(originalIndex)`; there is no lower bound, so a negative
index passes the guard and the subsequent `segments[originalIndex].start`
access throws (JS array indexing yields `undefined` off the right end and at
negative positions), which escapes as the catch-all translation failure. -/
def mapTranslations (segments : List TranscriptSegment) (usedIndices : List Int) :
    List Translation → Except String (List TranscriptSegment)
  | [] => Except.ok []
  | t :: rest =>
    if t.index < (segments.length : Int) ∧ ¬ t.index ∈ usedIndices then
      match (if t.index < 0 then none else segments[t.index.toNat]?) with
      | none =>
          Except.error "Gemini Translation Failed: Cannot read properties of undefined (reading 'start')"
      | some seg =>
          (mapTranslations segments (t.index :: usedIndices) rest).map
            (fun result =>
              { start := seg.start, endTime := seg.endTime, text := t.text } :: result)
    else
      mapTranslations segments usedIndices rest

/-- The source's `result.sort((a, b) => a.start - b.start)` — a stable sort by `start`. -/
def sortByStartT (l : List TranscriptSegment) : List TranscriptSegment :=
  List.insertionSort (fun a b => a.start ≤ b.start) l

/-- The pure core of `translateTranscript`: map the model output back onto the
original segments, then sort by start. -/
def translateTranscript (segments : List TranscriptSegment)
    (translations : List Translation) : Except String (List TranscriptSegment) :=
  (mapTranslations segments [] translations).map sortByStartT

/- Spec-side mapper, for the refinement statement of the amended C3. -/

/-- Keep the first occurrence of each index, dropping later duplicates. -/
def dedupFirst (usedIndices : List Int) : List Translation → List Translation
  | [] => []
  | t :: rest =>
    if t.index ∈ usedIndices then dedupFirst usedIndices rest
    else t :: dedupFirst (t.index :: usedIndices) rest

/-- Build the translated unit for a kept translation, preserving the source
segment's `start`/`end`. -/
def unitOf (segments : List TranscriptSegment) (t : Translation) :
    Option TranscriptSegment :=
  (segments[t.index.toNat]?).map
    (fun seg => { start := seg.start, endTime := seg.endTime, text := t.text })

/-- Mapper described by the spec's words (for indices that are in range,
first occurrence wins, original `start`/`end` preserved, sorted by `start`);
compared with `translateTranscript` in the amended C3. -/
def specMapper (segments : List TranscriptSegment)
    (translations : List Translation) : List TranscriptSegment :=
  sortByStartT
    ((dedupFirst []
        (translations.filter
          (fun t => decide (0 ≤ t.index) && decide (t.index < (segments.length : Int))))).filterMap
      (unitOf segments))

instance : IsTotal TranscriptSegment (fun a b => a.start ≤ b.start) :=
  ⟨fun a b => le_total a.start b.start⟩

instance : IsTrans TranscriptSegment (fun a b => a.start ≤ b.start) :=
  ⟨fun _ _ _ hab hbc => le_trans hab hbc⟩

/- ### String helpers mirroring the JavaScript primitives used by the source -/

/-- Does the second list start with the first? (JS `String.prototype.startsWith`
on the character level.) -/
def startsWithAux : List Char → List Char → Bool
  | [], _ => true
  | _ :: _, [] => false
  | p :: ps, c :: cs => p == c && startsWithAux ps cs

/-- JS `file.startsWith(videoId)`. -/
def jsStartsWith (s pre : String) : Bool :=
  startsWithAux pre.toList s.toList

/-- Replace the first occurrence of `pat` (JS `String.prototype.replace` with a
plain-string pattern replaces only the first match). -/
def replaceOnceAux (pat rep : List Char) : List Char → List Char
  | [] => []
  | c :: rest =>
    if startsWithAux pat (c :: rest) then rep ++ (c :: rest).drop pat.length
    else c :: replaceOnceAux pat rep rest

/-- JS `s.replace(pat, rep)` for plain-string patterns. -/
def jsReplaceOnce (s pat rep : String) : String :=
  ⟨replaceOnceAux pat.toList rep.toList s.toList⟩

/- ### Timing Resolver — `stitchAudioWithTiming` / `adjustAudioSpeed`, tts.ts -/

/-- Oracles for the effectful collaborators of the timing resolver:
`probe p` is the ffprobe duration of the pre-existing file at `p`;
`fsExists` is `fs.existsSync`; `ffmpegOk p chain` tells whether the ffmpeg
atempo run on input `p` with the given filter chain exits 0; and
`compressedDuration p chain` is the probed duration of the file that run
produces when it succeeds. -/
structure Env where
  probe : String → ℚ
  fsExists : String → Bool
  ffmpegOk : String → List ℚ → Bool
  compressedDuration : String → List ℚ → ℚ

/-- What `adjustAudioSpeed` leaves at its output path: either an unmodified
copy of the input file, or the compressed rendition for a filter chain. -/
inductive WrittenFile where
  | copy (src : String)
  | compressed (src : String) (chain : List ℚ)
deriving DecidableEq, Repr

/-- Probed duration of a written file: a byte-for-byte copy probes like its
source; a compressed rendition probes to whatever ffmpeg actually produced. -/
def fileDuration (env : Env) : WrittenFile → ℚ
  | WrittenFile.copy src => env.probe src
  | WrittenFile.compressed src chain => env.compressedDuration src chain

/-- JS `x.toFixed(4)` read back as a number (round to 4 decimal places). -/
def round4 (q : ℚ) : ℚ :=
  ((round (q * 10000) : ℤ) : ℚ) / 10000

/-- The atempo chain loop of `adjustAudioSpeed` (tts.ts lines 123-132):
`while (remainingFactor > 2.0) push atempo=2.0, halve;` then
`if (remainingFactor > 1.0) push atempo=remainingFactor.toFixed(4)`.
The `fuel` bounds the number of halvings; `atempoChain` supplies
`⌈speedFactor⌉₊` halvings, which is always enough. -/
def atempoChainAux : Nat → ℚ → List ℚ
  | 0, remainingFactor => if 1 < remainingFactor then [round4 remainingFactor] else []
  | fuel + 1, remainingFactor =>
    if 2 < remainingFactor then 2 :: atempoChainAux fuel (remainingFactor / 2)
    else if 1 < remainingFactor then [round4 remainingFactor] else []

/-- The full atempo filter chain for a speed factor. -/
def atempoChain (speedFactor : ℚ) : List ℚ :=
  atempoChainAux ⌈speedFactor⌉₊ speedFactor

/-- The `adjustAudioSpeed(inputPath, outputPath, targetDuration)` call (tts.ts 108-156),
described by the file it leaves at the output path: copy when no speed-up is
needed, copy when the chain is empty, the compressed rendition when ffmpeg
succeeds, and a fallback copy when ffmpeg exits non-zero. -/
def adjustAudioSpeed (env : Env) (inputPath : String) (targetDuration : ℚ) :
    WrittenFile :=
  let actualDuration := env.probe inputPath
  if actualDuration ≤ targetDuration then WrittenFile.copy inputPath
  else
    let speedFactor := actualDuration / targetDuration
    let chain := atempoChain speedFactor
    if chain = [] then WrittenFile.copy inputPath
    else if env.ffmpegOk inputPath chain then WrittenFile.compressed inputPath chain
    else WrittenFile.copy inputPath

/-- One segment of the stitch input: `{start, end, audioPath}`. -/
structure StitchSegment where
  start : ℚ
  endTime : ℚ
  audioPath : String
deriving DecidableEq, Repr

/-- One entry of `adjustedSegments` (tts.ts 224-231). -/
structure AdjustedSegment where
  start : ℚ
  endTime : ℚ
  audioPath : String
  originalPath : String
  wasAdjusted : Bool
  audioDuration : ℚ
  exactStart : ℚ
deriving DecidableEq, Repr

/-- The `availableTime` value as computed at tts.ts 188-195: the target window for the
last segment, otherwise `max(min(targetDuration, nextStart - start), 0.5)`. -/
def availTime (segment : StitchSegment) (nextStart? : Option ℚ) : ℚ :=
  let targetDuration := segment.endTime - segment.start
  match nextStart? with
  | none => targetDuration
  | some nextStart => max (min targetDuration (nextStart - segment.start)) (1/2)

/-- The per-segment body of the stitch loop (tts.ts 184-231): probe the TTS
clip, compute the available time, and speed-adjust when the clip overruns it,
capping the factor at 3.0. -/
def processSegment (env : Env) (segment : StitchSegment) (nextStart? : Option ℚ) :
    AdjustedSegment :=
  let ttsDuration := env.probe segment.audioPath
  let availableTime := availTime segment nextStart?
  if availableTime < ttsDuration then
    let speedFactor := ttsDuration / availableTime
    let adjustedPath := jsReplaceOnce segment.audioPath ".mp3" "_adjusted.mp3"
    if speedFactor ≤ 3 then
      { start := segment.start, endTime := segment.endTime,
        audioPath := adjustedPath, originalPath := segment.audioPath,
        wasAdjusted := decide (adjustedPath ≠ segment.audioPath),
        audioDuration := fileDuration env (adjustAudioSpeed env segment.audioPath availableTime),
        exactStart := segment.start }
    else
      let cappedDuration := ttsDuration / 3
      { start := segment.start, endTime := segment.endTime,
        audioPath := adjustedPath, originalPath := segment.audioPath,
        wasAdjusted := decide (adjustedPath ≠ segment.audioPath),
        audioDuration := fileDuration env (adjustAudioSpeed env segment.audioPath cappedDuration),
        exactStart := segment.start }
  else
    { start := segment.start, endTime := segment.endTime,
      audioPath := segment.audioPath, originalPath := segment.audioPath,
      wasAdjusted := false,
      audioDuration := ttsDuration, exactStart := segment.start }

/-- Start of the next entry of `sortedSegments`, if any. -/
def nextStartOf : List StitchSegment → Option ℚ
  | [] => none
  | seg :: _ => some seg.start

/-- The stitch loop over the sorted segments (tts.ts 176-232); segments whose
file does not exist are skipped, but the `i+1` deadline always comes from the
sorted list itself. -/
def stitchLoop (env : Env) : List StitchSegment → List AdjustedSegment
  | [] => []
  | segment :: rest =>
    if env.fsExists segment.audioPath then
      processSegment env segment (nextStartOf rest) :: stitchLoop env rest
    else
      stitchLoop env rest

/-- The source's `const sortedSegments = [...segments].sort((a, b) => a.start - b.start)`. -/
def sortByStartS (segments : List StitchSegment) : List StitchSegment :=
  List.insertionSort (fun a b => a.start ≤ b.start) segments

/-- The `adjustedSegments` list of `stitchAudioWithTiming`. -/
def stitchAdjusted (env : Env) (segments : List StitchSegment) :
    List AdjustedSegment :=
  stitchLoop env (sortByStartS segments)

/-- Files deleted by the success path of `stitchAudioWithTiming`
(tts.ts 291-297): the filter script, then every adjusted clip. -/
def cleanupOnSuccess (filterScriptPath : String)
    (adjustedSegments : List AdjustedSegment) : List String :=
  filterScriptPath :: (adjustedSegments.filter (·.wasAdjusted)).map (·.audioPath)

/-- Files deleted by the error path of `stitchAudioWithTiming`
(tts.ts 311-317): the same filter script and adjusted clips. -/
def cleanupOnError (filterScriptPath : String)
    (adjustedSegments : List AdjustedSegment) : List String :=
  filterScriptPath :: (adjustedSegments.filter (·.wasAdjusted)).map (·.audioPath)

/- ### Speech Synthesizer loop — `generateGeorgianAudio`, tts.ts 14-60 -/

/-- Strip bracket annotations: JS `text.replace(/\[.*?\]/g, '')`. Each `[` is
removed together with everything up to the next `]`; a `[` with no later `]`
matches nothing and stays. (The regex dot does not match a newline; none of
the properties below depend on that corner.) -/
def stripBrackets : List Char → List Char
  | [] => []
  | c :: rest =>
    if c = '[' then
      if h : rest.dropWhile (fun d => d ≠ ']') = [] then c :: rest
      else stripBrackets (rest.dropWhile (fun d => d ≠ ']')).tail
    else
      c :: stripBrackets rest
termination_by cs => cs.length
decreasing_by
  · have h1 : (rest.dropWhile (fun d => d ≠ ']')).length ≤ rest.length :=
      (List.dropWhile_sublist _).length_le
    have h2 : 0 < (rest.dropWhile (fun d => d ≠ ']')).length :=
      List.length_pos.mpr h
    have h3 : (rest.dropWhile (fun d => d ≠ ']')).tail.length
        = (rest.dropWhile (fun d => d ≠ ']')).length - 1 :=
      List.length_tail _
    simp only [List.length_cons]
    omega
  · simp only [List.length_cons]; omega

/-- The `cleanText` of one unit: strip bracket annotations, then trim. -/
def cleanTextOf (text : String) : String :=
  (String.mk (stripBrackets text.toList)).trim

/-- Deterministic per-unit clip name:
`path.join(outputDir, videoId + "_segment_" + i + ".mp3")`. -/
def segFileName (outputDir videoId : String) (i : Nat) : String :=
  outputDir ++ "/" ++ videoId ++ "_segment_" ++ toString i ++ ".mp3"

/-- The synthesis loop (tts.ts 22-57), parameterized by a success oracle
`synthOk i attempt` for the external TTS call: empty or bracket-only units are
skipped; a failed call is retried exactly once; a unit whose retry also fails
is dropped. Returns the list of clip files actually produced. -/
def ttsLoop (synthOk : Nat → Nat → Bool) (outputDir videoId : String) :
    Nat → List TranscriptSegment → List String
  | _, [] => []
  | i, segment :: rest =>
    if segment.text.trim = "" then ttsLoop synthOk outputDir videoId (i + 1) rest
    else
      let cleanText := cleanTextOf segment.text
      if cleanText = "" then ttsLoop synthOk outputDir videoId (i + 1) rest
      else
        let fileName := segFileName outputDir videoId i
        if synthOk i 0 then fileName :: ttsLoop synthOk outputDir videoId (i + 1) rest
        else if synthOk i 1 then fileName :: ttsLoop synthOk outputDir videoId (i + 1) rest
        else ttsLoop synthOk outputDir videoId (i + 1) rest

/-- The `generateGeorgianAudio` loop result — the files pushed to `segmentFiles`. -/
def generateGeorgianAudio (synthOk : Nat → Nat → Bool) (outputDir videoId : String)
    (segments : List TranscriptSegment) : List String :=
  ttsLoop synthOk outputDir videoId 0 segments

/- ### Pipeline stage 4 — translate-stream route, route.ts 86-123 -/

/-- The `segmentsWithPaths` list (route.ts 86-95): for each translated segment, keep it
with its expected clip file when that file exists. -/
def buildSegmentsWithPaths (fsExists : String → Bool) (outputDir videoId : String) :
    Nat → List TranscriptSegment → List (TranscriptSegment × String)
  | _, [] => []
  | i, seg :: rest =>
    let expectedFileName := segFileName outputDir videoId i
    if fsExists expectedFileName then
      (seg, expectedFileName) :: buildSegmentsWithPaths fsExists outputDir videoId (i + 1) rest
    else
      buildSegmentsWithPaths fsExists outputDir videoId (i + 1) rest

/-- Stage 4 gate (route.ts 97-99): with zero surviving clips the run throws
before `stitchAudioWithTiming` is ever called; otherwise the stitch input is
handed on. -/
def stitchStage (fsExists : String → Bool) (outputDir videoId : String)
    (translationSegments : List TranscriptSegment) :
    Except String (List (TranscriptSegment × String)) :=
  let segmentsWithPaths := buildSegmentsWithPaths fsExists outputDir videoId 0 translationSegments
  if segmentsWithPaths.length = 0 then
    Except.error "ვერცერთი აუდიო სეგმენტი ვერ შეიქმნა."
  else
    Except.ok segmentsWithPaths

/-- Durable outputs of stage 4: the DubTrack (`videoId_georgian.mp3`, written
by the composite) and the metadata sidecar (`videoId_meta.json`), both written
only after the gate passes; the thrown error skips both. -/
def stage4WrittenFiles (fsExists : String → Bool) (outputDir videoId : String)
    (translationSegments : List TranscriptSegment) : List String :=
  match stitchStage fsExists outputDir videoId translationSegments with
  | Except.error _ => []
  | Except.ok _ =>
      [outputDir ++ "/" ++ videoId ++ "_georgian.mp3",
       outputDir ++ "/" ++ videoId ++ "_meta.json"]

/- ### History DELETE — history/[videoId]/route.ts 21-35 -/

/-- The files unlinked by the DELETE handler: every file of the shared temp
directory whose name starts with the given video id. -/
def historyDelete (videoId : String) (files : List String) : List String :=
  files.filter (fun file => jsStartsWith file videoId)

/- ### Helper lemmas -/

theorem startsWithAux_of_pre :
    ∀ (l₁ l₂ : List Char), l₁ <+: l₂ → startsWithAux l₁ l₂ = true
  | [], _, _ => rfl
  | p :: ps, l₂, h => by
    obtain ⟨t, ht⟩ := h
    subst ht
    simp only [List.cons_append, startsWithAux, beq_self_eq_true, Bool.true_and]
    exact startsWithAux_of_pre ps (ps ++ t) ⟨t, rfl⟩

/- ### Claims -/

/-- C1: in the Timing Resolver, the available time of position `i` in the
sorted clip list is the unit's own window `end - start` when `i` is last, and
`max(min(end - start, nextStart - start), 0.5)` otherwise; in particular a
unit spanning 0-1s whose successor starts at 1.2s gets 1.0s. -/
theorem c1_available_time (segs : List StitchSegment) (i : Nat) (hi : i < segs.length) :
    (i + 1 = segs.length →
      availTime (segs.get ⟨i, hi⟩) ((segs[i+1]?).map (·.start))
        = (segs.get ⟨i, hi⟩).endTime - (segs.get ⟨i, hi⟩).start)
    ∧ (∀ hj : i + 1 < segs.length,
      availTime (segs.get ⟨i, hi⟩) ((segs[i+1]?).map (·.start))
        = max (min ((segs.get ⟨i, hi⟩).endTime - (segs.get ⟨i, hi⟩).start)
                   ((segs.get ⟨i+1, hj⟩).start - (segs.get ⟨i, hi⟩).start)) (1/2))
    ∧ availTime ⟨0, 1, "a.mp3"⟩ (some (6/5)) = 1 := by
  refine ⟨?_, ?_, ?_⟩
  · intro h
    have hnone : segs[i+1]? = none := by
      rw [List.getElem?_eq_none]; omega
    simp [availTime, hnone]
  · intro hj
    have hsome : segs[i+1]? = some (segs.get ⟨i+1, hj⟩) := by
      rw [List.getElem?_eq_getElem hj]; simp
    simp [availTime, hsome]
  · norm_num [availTime]

theorem c1_available_time_witness :
    availTime ⟨0, 1, "a.mp3"⟩ (some (6/5)) = 1 :=
  (c1_available_time [⟨0, 1, "a.mp3"⟩, ⟨6/5, 2, "b.mp3"⟩] 0 (by norm_num)).2.2

/-- C4: a clip whose measured duration fits into its available time is left
alone: the effective duration is the measured one, `wasAdjusted` is false, and
the recorded path is the unmodified original (no derived file). -/
theorem c4_fits_no_adjustment (env : Env) (segment : StitchSegment)
    (nextStart? : Option ℚ)
    (h : env.probe segment.audioPath ≤ availTime segment nextStart?) :
    (processSegment env segment nextStart?).audioDuration = env.probe segment.audioPath
    ∧ (processSegment env segment nextStart?).wasAdjusted = false
    ∧ (processSegment env segment nextStart?).audioPath = segment.audioPath := by
  have hlt : ¬ availTime segment nextStart? < env.probe segment.audioPath := not_lt.mpr h
  simp [processSegment, hlt]

theorem c4_fits_no_adjustment_witness :
    (processSegment ⟨fun _ => 1, fun _ => true, fun _ _ => true, fun _ _ => 1⟩
        ⟨0, 2, "v_segment_0.mp3"⟩ none).wasAdjusted = false :=
  (c4_fits_no_adjustment ⟨fun _ => 1, fun _ => true, fun _ _ => true, fun _ _ => 1⟩
    ⟨0, 2, "v_segment_0.mp3"⟩ none (by norm_num [availTime])).2.1

/-- C10: the history DELETE for a video id unlinks every temp file whose name
merely starts with that id, so when id `a` is a prefix of id `b`, deleting `a`
also deletes each of `b`'s files (`b ++ "_georgian.mp3"`, `b ++ "_meta.json"`,
`b ++ "_segment_i.mp3"`, all instances of `b ++ suffix`). -/
theorem c10_prefix_collision_delete (a b suffix : String) (files : List String)
    (hpre : a.toList <+: b.toList) (hmem : (b ++ suffix) ∈ files) :
    (b ++ suffix) ∈ historyDelete a files := by
  apply List.mem_filter.mpr
  refine ⟨hmem, ?_⟩
  have htl : (b ++ suffix).toList = b.toList ++ suffix.toList := by
    simp [String.toList]
  apply startsWithAux_of_pre
  rw [htl]
  exact hpre.trans (List.prefix_append _ _)

theorem c10_prefix_collision_delete_witness :
    ("vid2" ++ "_georgian.mp3") ∈ historyDelete "vid" ["vid2_georgian.mp3"] :=
  c10_prefix_collision_delete "vid" "vid2" "_georgian.mp3" ["vid2_georgian.mp3"]
    (by decide) (by decide)

/-- C6 counterexample: a single clip that fits its window is never speed
adjusted, and after a successful composite its file is NOT deleted — the
cleanup list holds only the filter script — contradicting the claim that
never-adjusted clips are deleted whether the composite succeeds or fails. -/
theorem c6_counterexample :
    (stitchAdjusted ⟨fun _ => 1, fun _ => true, fun _ _ => true, fun _ _ => 1⟩
        [⟨0, 2, "v_segment_0.mp3"⟩]).map (·.wasAdjusted) = [false]
    ∧ ¬ "v_segment_0.mp3" ∈ cleanupOnSuccess "v_georgian_filter.txt"
        (stitchAdjusted ⟨fun _ => 1, fun _ => true, fun _ _ => true, fun _ _ => 1⟩
          [⟨0, 2, "v_segment_0.mp3"⟩])
    ∧ ¬ "v_segment_0.mp3" ∈ cleanupOnError "v_georgian_filter.txt"
        (stitchAdjusted ⟨fun _ => 1, fun _ => true, fun _ _ => true, fun _ _ => 1⟩
          [⟨0, 2, "v_segment_0.mp3"⟩]) := by
  refine ⟨?_, ?_, ?_⟩ <;>
    norm_num [stitchAdjusted, sortByStartS, stitchLoop, processSegment, availTime,
      nextStartOf, cleanupOnSuccess, cleanupOnError] <;>
    decide

/-- C6 amended: the success and error paths of the composite delete exactly
the same files: the filter-description scratch file and every speed-adjusted
intermediate clip. Clips that were never adjusted are not deleted, and
original synthesized clips are removed only if their path coincides with an
adjusted path or the scratch file. -/
theorem c6_amended (filterScriptPath : String)
    (adjustedSegments : List AdjustedSegment) :
    cleanupOnSuccess filterScriptPath adjustedSegments
        = cleanupOnError filterScriptPath adjustedSegments
    ∧ (∀ p : String, p ∈ cleanupOnSuccess filterScriptPath adjustedSegments
        ↔ p = filterScriptPath
          ∨ ∃ s ∈ adjustedSegments, s.wasAdjusted = true ∧ s.audioPath = p) := by
  refine ⟨rfl, fun p => ?_⟩
  simp only [cleanupOnSuccess, List.mem_cons, List.mem_map, List.mem_filter]
  constructor
  · rintro (h | ⟨s, ⟨hs, hadj⟩, hp⟩)
    · exact Or.inl h
    · exact Or.inr ⟨s, hs, hadj, hp⟩
  · rintro (h | ⟨s, hs, hadj, hp⟩)
    · exact Or.inl h
    · exact Or.inr ⟨s, ⟨hs, hadj⟩, hp⟩

theorem c6_amended_witness :
    cleanupOnSuccess "f.txt" [] = cleanupOnError "f.txt" [] :=
  (c6_amended "f.txt" []).1

theorem atempoChainAux_ne_nil (fuel : Nat) (r : ℚ) (h : 1 < r) :
    atempoChainAux fuel r ≠ [] := by
  cases fuel with
  | zero => simp [atempoChainAux, h]
  | succ n =>
    by_cases h2 : 2 < r
    · simp [atempoChainAux, h2]
    · simp [atempoChainAux, h2, h]

theorem adjustAudioSpeed_fail (env : Env) (inputPath : String) (target : ℚ)
    (htarget : 0 < target) (hover : target < env.probe inputPath)
    (hff : env.ffmpegOk inputPath (atempoChain (env.probe inputPath / target)) = false) :
    adjustAudioSpeed env inputPath target = WrittenFile.copy inputPath := by
  have hnle : ¬ env.probe inputPath ≤ target := not_le.mpr hover
  have h1 : 1 < env.probe inputPath / target := (one_lt_div htarget).mpr hover
  have hne : atempoChain (env.probe inputPath / target) ≠ [] :=
    atempoChainAux_ne_nil _ _ h1
  simp [adjustAudioSpeed, hnle, hne, hff]

theorem adjustAudioSpeed_ok (env : Env) (inputPath : String) (target : ℚ)
    (htarget : 0 < target) (hover : target < env.probe inputPath)
    (hff : env.ffmpegOk inputPath (atempoChain (env.probe inputPath / target)) = true) :
    adjustAudioSpeed env inputPath target
      = WrittenFile.compressed inputPath (atempoChain (env.probe inputPath / target)) := by
  have hnle : ¬ env.probe inputPath ≤ target := not_le.mpr hover
  have h1 : 1 < env.probe inputPath / target := (one_lt_div htarget).mpr hover
  have hne : atempoChain (env.probe inputPath / target) ≠ [] :=
    atempoChainAux_ne_nil _ _ h1
  simp [adjustAudioSpeed, hnle, hne, hff]

/-- C2: for an overrunning clip the Timing Resolver computes
`speedFactor = measuredDuration / availableTime`; a factor at most 3.0 leads
to a compression call targeting exactly `availableTime`, a larger factor to a
call targeting `measuredDuration / 3.0` — an applied factor of exactly 3.0,
with no attempt to force the smaller window — and in both cases the recorded
effective duration is the probed duration of the produced file (the
`compressedDuration` oracle when ffmpeg succeeds), never the arithmetic
target. -/
theorem c2_compression_policy (env : Env) (segment : StitchSegment)
    (nextStart? : Option ℚ)
    (havail : 0 < availTime segment nextStart?)
    (hover : availTime segment nextStart? < env.probe segment.audioPath) :
    (env.probe segment.audioPath / availTime segment nextStart? ≤ 3 →
      (processSegment env segment nextStart?).audioDuration
        = fileDuration env
            (adjustAudioSpeed env segment.audioPath (availTime segment nextStart?)))
    ∧ (3 < env.probe segment.audioPath / availTime segment nextStart? →
      (processSegment env segment nextStart?).audioDuration
        = fileDuration env
            (adjustAudioSpeed env segment.audioPath (env.probe segment.audioPath / 3))
      ∧ env.probe segment.audioPath / (env.probe segment.audioPath / 3) = 3)
    ∧ (env.probe segment.audioPath / availTime segment nextStart? ≤ 3 →
       env.ffmpegOk segment.audioPath
           (atempoChain (env.probe segment.audioPath / availTime segment nextStart?))
         = true →
      (processSegment env segment nextStart?).audioDuration
        = env.compressedDuration segment.audioPath
            (atempoChain (env.probe segment.audioPath / availTime segment nextStart?)))
    ∧ (3 < env.probe segment.audioPath / availTime segment nextStart? →
       env.ffmpegOk segment.audioPath (atempoChain 3) = true →
      (processSegment env segment nextStart?).audioDuration
        = env.compressedDuration segment.audioPath (atempoChain 3)) := by
  have htts : 0 < env.probe segment.audioPath := lt_trans havail hover
  have httsne : env.probe segment.audioPath ≠ 0 := ne_of_gt htts
  have hcap : env.probe segment.audioPath / (env.probe segment.audioPath / 3) = 3 := by
    field_simp
  have hcap0 : 0 < env.probe segment.audioPath / 3 := by positivity
  have hcaplt : env.probe segment.audioPath / 3 < env.probe segment.audioPath :=
    div_lt_self htts (by norm_num)
  refine ⟨?_, ?_, ?_, ?_⟩
  · intro hle
    simp [processSegment, hover, hle]
  · intro hgt
    have hnle : ¬ env.probe segment.audioPath / availTime segment nextStart? ≤ 3 :=
      not_le.mpr hgt
    exact ⟨by simp [processSegment, hover, hnle], hcap⟩
  · intro hle hok
    have hw := adjustAudioSpeed_ok env segment.audioPath (availTime segment nextStart?)
      havail hover hok
    simp [processSegment, hover, hle, hw, fileDuration]
  · intro hgt hok
    have hnle : ¬ env.probe segment.audioPath / availTime segment nextStart? ≤ 3 :=
      not_le.mpr hgt
    have hok' : env.ffmpegOk segment.audioPath
        (atempoChain (env.probe segment.audioPath / (env.probe segment.audioPath / 3)))
        = true := by rw [hcap]; exact hok
    have hw := adjustAudioSpeed_ok env segment.audioPath
      (env.probe segment.audioPath / 3) hcap0 hcaplt hok'
    rw [hcap] at hw
    simp [processSegment, hover, hnle, hw, fileDuration]

theorem c2_compression_policy_witness :
    (3 : ℚ) / availTime ⟨0, 1, "v_segment_0.mp3"⟩ (some (6/5)) ≤ 3
    ∧ (processSegment ⟨fun _ => 3, fun _ => true, fun _ _ => true, fun _ _ => 1⟩
          ⟨0, 1, "v_segment_0.mp3"⟩ (some (6/5))).audioDuration
        = fileDuration ⟨fun _ => 3, fun _ => true, fun _ _ => true, fun _ _ => 1⟩
            (adjustAudioSpeed ⟨fun _ => 3, fun _ => true, fun _ _ => true, fun _ _ => 1⟩
              "v_segment_0.mp3" (availTime ⟨0, 1, "v_segment_0.mp3"⟩ (some (6/5)))) := by
  have h1 : availTime ⟨0, 1, "v_segment_0.mp3"⟩ (some (6/5)) = 1 := by
    norm_num [availTime]
  refine ⟨by rw [h1]; norm_num, ?_⟩
  exact (c2_compression_policy ⟨fun _ => 3, fun _ => true, fun _ _ => true, fun _ _ => 1⟩
    ⟨0, 1, "v_segment_0.mp3"⟩ (some (6/5)) (by rw [h1]; norm_num)
    (by rw [h1]; norm_num)).1 (by rw [h1]; norm_num)

/-- C9: when the external compression run fails, `adjustAudioSpeed` falls back
to an unmodified copy at the derived path; the entry still reports
`wasAdjusted = true`, its re-probed effective duration equals the original
measured duration, and cleanup later deletes the fallback copy at the derived
path, not the retained original. -/
theorem c9_failed_compression (env : Env) (segment : StitchSegment)
    (nextStart? : Option ℚ)
    (havail : 0 < availTime segment nextStart?)
    (hover : availTime segment nextStart? < env.probe segment.audioPath)
    (hff : ∀ chain, env.ffmpegOk segment.audioPath chain = false)
    (hpath : jsReplaceOnce segment.audioPath ".mp3" "_adjusted.mp3"
        ≠ segment.audioPath) :
    (processSegment env segment nextStart?).wasAdjusted = true
    ∧ (processSegment env segment nextStart?).audioDuration
        = env.probe segment.audioPath
    ∧ (processSegment env segment nextStart?).audioPath
        = jsReplaceOnce segment.audioPath ".mp3" "_adjusted.mp3"
    ∧ (processSegment env segment nextStart?).originalPath = segment.audioPath
    ∧ ∀ filterScriptPath : String,
        (processSegment env segment nextStart?).audioPath
          ∈ cleanupOnSuccess filterScriptPath [processSegment env segment nextStart?]
        ∧ (filterScriptPath ≠ segment.audioPath →
            segment.audioPath
              ∉ cleanupOnSuccess filterScriptPath [processSegment env segment nextStart?]) := by
  have htts : 0 < env.probe segment.audioPath := lt_trans havail hover
  have hcap0 : 0 < env.probe segment.audioPath / 3 := by positivity
  have hcaplt : env.probe segment.audioPath / 3 < env.probe segment.audioPath :=
    div_lt_self htts (by norm_num)
  have hbase :
      (processSegment env segment nextStart?).wasAdjusted = true
      ∧ (processSegment env segment nextStart?).audioDuration
          = env.probe segment.audioPath
      ∧ (processSegment env segment nextStart?).audioPath
          = jsReplaceOnce segment.audioPath ".mp3" "_adjusted.mp3"
      ∧ (processSegment env segment nextStart?).originalPath = segment.audioPath := by
    by_cases hle :
        env.probe segment.audioPath / availTime segment nextStart? ≤ 3
    · have hw := adjustAudioSpeed_fail env segment.audioPath
        (availTime segment nextStart?) havail hover (hff _)
      simp [processSegment, hover, hle, hw, fileDuration, hpath]
    · have hw := adjustAudioSpeed_fail env segment.audioPath
        (env.probe segment.audioPath / 3) hcap0 hcaplt (hff _)
      simp [processSegment, hover, hle, hw, fileDuration, hpath]
  obtain ⟨hadj, hdur, hap, hop⟩ := hbase
  refine ⟨hadj, hdur, hap, hop, fun filterScriptPath => ⟨?_, ?_⟩⟩
  · simp [cleanupOnSuccess, hadj]
  · intro hfsp
    simp [cleanupOnSuccess, hadj, hap]
    exact ⟨fun h => hfsp h.symm, fun h => hpath h.symm⟩

theorem c9_failed_compression_witness :
    (processSegment ⟨fun _ => 4, fun _ => true, fun _ _ => false, fun _ _ => 1⟩
        ⟨0, 1, "v_segment_0.mp3"⟩ (some (6/5))).wasAdjusted = true
    ∧ (processSegment ⟨fun _ => 4, fun _ => true, fun _ _ => false, fun _ _ => 1⟩
        ⟨0, 1, "v_segment_0.mp3"⟩ (some (6/5))).audioDuration = 4 := by
  have h := c9_failed_compression
    ⟨fun _ => 4, fun _ => true, fun _ _ => false, fun _ _ => 1⟩
    ⟨0, 1, "v_segment_0.mp3"⟩ (some (6/5))
    (by norm_num [availTime]) (by norm_num [availTime])
    (fun _ => rfl) (by decide)
  exact ⟨h.1, h.2.1⟩

theorem mapTranslations_eq_spec (segments : List TranscriptSegment) :
    ∀ (translations : List Translation) (usedIndices : List Int),
      (∀ t ∈ translations, 0 ≤ t.index) →
      mapTranslations segments usedIndices translations
        = Except.ok
            ((dedupFirst usedIndices
                (translations.filter
                  (fun t => decide (0 ≤ t.index)
                    && decide (t.index < (segments.length : Int))))).filterMap
              (unitOf segments))
  | [], _, _ => rfl
  | t :: rest, usedIndices, h => by
    have ht : 0 ≤ t.index := h t (List.mem_cons_self t rest)
    have hrest : ∀ x ∈ rest, 0 ≤ x.index := fun x hx => h x (List.mem_cons_of_mem t hx)
    by_cases hlt : t.index < (segments.length : Int)
    · by_cases hused : t.index ∈ usedIndices
      · have hguard : ¬ (t.index < (segments.length : Int) ∧ ¬ t.index ∈ usedIndices) := by
          tauto
        simp only [mapTranslations, if_neg hguard]
        rw [mapTranslations_eq_spec segments rest usedIndices hrest]
        simp [List.filter_cons, ht, hlt, dedupFirst, hused]
      · have hguard : t.index < (segments.length : Int) ∧ ¬ t.index ∈ usedIndices :=
          ⟨hlt, hused⟩
        have hneg : ¬ t.index < 0 := not_lt.mpr ht
        have htoNat : t.index.toNat < segments.length := by omega
        have hget : segments[t.index.toNat]?
            = some (segments.get ⟨t.index.toNat, htoNat⟩) := by
          rw [List.getElem?_eq_getElem htoNat]; simp
        simp only [mapTranslations, if_pos hguard, if_neg hneg, hget]
        rw [mapTranslations_eq_spec segments rest (t.index :: usedIndices) hrest]
        simp [List.filter_cons, ht, hlt, dedupFirst, hused, unitOf, hget, Except.map]
    · have hguard : ¬ (t.index < (segments.length : Int) ∧ ¬ t.index ∈ usedIndices) := by
        tauto
      simp only [mapTranslations, if_neg hguard]
      rw [mapTranslations_eq_spec segments rest usedIndices hrest]
      simp [List.filter_cons, hlt]

/-- C3 counterexample: the claim says indices outside `[0, N)` are discarded
without effect, but a negative index is only checked against the upper bound;
the subsequent array access throws, so the whole mapper fails instead of
returning a result with the stray index dropped. -/
theorem c3_counterexample :
    translateTranscript [⟨0, 1, "s0"⟩, ⟨2, 3, "s1"⟩, ⟨4, 5, "s2"⟩] [⟨-1, "x"⟩]
      = Except.error
          "Gemini Translation Failed: Cannot read properties of undefined (reading 'start')" := by
  rfl

/-- C3 amended: for model outputs whose indices are all non-negative, the
mapper returns exactly the spec-side result — at most one unit per source
index with the first occurrence winning, indices `≥ N` discarded without
effect, each kept unit preserving its source segment's `start`/`end`, sorted
by `start` (a negative index instead makes the whole mapper fail). In
particular for 3 input units and a model output with index 2 twice and index 1
omitted, the result holds units for indices 0 and 2 only, in that order. -/
theorem c3_amended (segments : List TranscriptSegment)
    (translations : List Translation)
    (h : ∀ t ∈ translations, 0 ≤ t.index) :
    translateTranscript segments translations
        = Except.ok (specMapper segments translations)
    ∧ List.Sorted (fun a b : TranscriptSegment => a.start ≤ b.start)
        (specMapper segments translations)
    ∧ translateTranscript [⟨0, 1, "s0"⟩, ⟨2, 3, "s1"⟩, ⟨4, 5, "s2"⟩]
          [⟨0, "t0"⟩, ⟨2, "t2"⟩, ⟨2, "dup"⟩]
        = Except.ok [⟨0, 1, "t0"⟩, ⟨4, 5, "t2"⟩] := by
  refine ⟨?_, ?_, by rfl⟩
  · unfold translateTranscript specMapper
    rw [mapTranslations_eq_spec segments translations [] h]
    rfl
  · simp only [specMapper, sortByStartT]
    exact List.sorted_insertionSort _ _

theorem c3_amended_witness :
    translateTranscript [⟨0, 1, "s0"⟩, ⟨2, 3, "s1"⟩, ⟨4, 5, "s2"⟩]
        [⟨0, "t0"⟩, ⟨2, "t2"⟩, ⟨2, "dup"⟩]
      = Except.ok [⟨0, 1, "t0"⟩, ⟨4, 5, "t2"⟩] :=
  (c3_amended [⟨0, 1, "s0"⟩, ⟨2, 3, "s1"⟩, ⟨4, 5, "s2"⟩]
    [⟨0, "t0"⟩, ⟨2, "t2"⟩, ⟨2, "dup"⟩] (by decide)).2.2

/-- C7 counterexample: with 3 input units and an empty model output — zero
units mapped, materially lower than N — the mapper does not fail with any
error signal: it returns the empty unit list successfully. There is no
completeness check in the code. -/
theorem c7_counterexample :
    translateTranscript [⟨0, 1, "s0"⟩, ⟨2, 3, "s1"⟩, ⟨4, 5, "s2"⟩]
        ([] : List Translation) = Except.ok []
    ∧ ∀ e, translateTranscript [⟨0, 1, "s0"⟩, ⟨2, 3, "s1"⟩, ⟨4, 5, "s2"⟩]
        ([] : List Translation) ≠ Except.error e := by
  refine ⟨rfl, fun e hcontra => ?_⟩
  rw [show translateTranscript [⟨0, 1, "s0"⟩, ⟨2, 3, "s1"⟩, ⟨4, 5, "s2"⟩]
      ([] : List Translation) = Except.ok [] from rfl] at hcontra
  simp at hcontra

/-- C7 amended: the Translation Mapper performs no completeness check at all:
for any model output with non-negative indices it returns the mapped units
successfully, however few they are — there is no IncompleteTranslation
signal. -/
theorem c7_amended (segments : List TranscriptSegment)
    (translations : List Translation)
    (h : ∀ t ∈ translations, 0 ≤ t.index) :
    ∃ result, translateTranscript segments translations = Except.ok result := by
  refine ⟨specMapper segments translations, ?_⟩
  unfold translateTranscript specMapper
  rw [mapTranslations_eq_spec segments translations [] h]
  rfl

theorem c7_amended_witness :
    ∃ result, translateTranscript [⟨0, 1, "s0"⟩] ([] : List Translation)
      = Except.ok result :=
  c7_amended [⟨0, 1, "s0"⟩] [] (by simp)

theorem mergeLoop_ne_nil :
    ∀ (rest : List TranscriptSegment) (currentSegment : TranscriptSegment),
      mergeLoop currentSegment rest ≠ []
  | [], _ => by simp [mergeLoop]
  | seg :: rest, currentSegment => by
    simp only [mergeLoop]
    split_ifs
    · exact mergeLoop_ne_nil rest _
    · simp

theorem mergeLoop_start_mem :
    ∀ (rest : List TranscriptSegment) (currentSegment x : TranscriptSegment),
      x ∈ mergeLoop currentSegment rest →
      x.start = currentSegment.start ∨ ∃ y ∈ rest, x.start = y.start
  | [], currentSegment, x, hx => by
    simp [mergeLoop] at hx
    exact Or.inl (by rw [hx])
  | seg :: rest, currentSegment, x, hx => by
    simp only [mergeLoop] at hx
    split_ifs at hx with hcond
    · rcases mergeLoop_start_mem rest _ x hx with h | ⟨y, hy, hxy⟩
      · exact Or.inl h
      · exact Or.inr ⟨y, List.mem_cons_of_mem seg hy, hxy⟩
    · rcases List.mem_cons.mp hx with h | h
      · exact Or.inl (by rw [h])
      · rcases mergeLoop_start_mem rest seg x h with h' | ⟨y, hy, hxy⟩
        · exact Or.inr ⟨seg, List.mem_cons_self seg rest, h'⟩
        · exact Or.inr ⟨y, List.mem_cons_of_mem seg hy, hxy⟩

theorem mergeLoop_sorted :
    ∀ (rest : List TranscriptSegment) (currentSegment : TranscriptSegment),
      List.Sorted (fun a b : TranscriptSegment => a.start ≤ b.start)
        (currentSegment :: rest) →
      List.Sorted (fun a b : TranscriptSegment => a.start ≤ b.start)
        (mergeLoop currentSegment rest)
  | [], currentSegment, _ => by simp [mergeLoop]
  | seg :: rest, currentSegment, h => by
    obtain ⟨hhead, htail⟩ := List.sorted_cons.mp h
    obtain ⟨hhead2, htail2⟩ := List.sorted_cons.mp htail
    simp only [mergeLoop]
    split_ifs with hcond
    · apply mergeLoop_sorted rest
      exact List.sorted_cons.mpr
        ⟨fun b hb => hhead b (List.mem_cons_of_mem seg hb), htail2⟩
    · apply List.sorted_cons.mpr
      refine ⟨fun b hb => ?_, mergeLoop_sorted rest seg htail⟩
      rcases mergeLoop_start_mem rest seg b hb with h' | ⟨y, hy, hby⟩
      · rw [h']
        exact hhead seg (List.mem_cons_self seg rest)
      · rw [hby]
        exact hhead y (List.mem_cons_of_mem seg hy)

theorem joinTexts_cons_ne (x : String) (l : List String) (h : l ≠ []) :
    joinTexts (x :: l) = x ++ " " ++ joinTexts l := by
  cases l with
  | nil => exact absurd rfl h
  | cons c l' => rfl

theorem mergeLoop_texts :
    ∀ (rest : List TranscriptSegment) (currentSegment : TranscriptSegment),
      joinTexts ((mergeLoop currentSegment rest).map (·.text))
        = joinTexts (currentSegment.text :: rest.map (·.text))
  | [], currentSegment => rfl
  | seg :: rest, currentSegment => by
    simp only [mergeLoop]
    split_ifs with hcond
    · rw [mergeLoop_texts rest _]
      simp only [List.map_cons]
      cases rest with
      | nil => simp [joinTexts]
      | cons c l' =>
        rw [joinTexts_cons_ne _ _ (by simp), joinTexts_cons_ne _ _ (by simp),
          joinTexts_cons_ne _ _ (by simp)]
        simp [String.append_assoc]
    · have hne : (mergeLoop seg rest).map (·.text) ≠ [] := by
        simp [mergeLoop_ne_nil rest seg]
      simp only [List.map_cons]
      rw [joinTexts_cons_ne _ _ hne, mergeLoop_texts rest seg]
      exact (joinTexts_cons_ne _ _ (by simp)).symm

/-- C5 counterexample: two overlapping fragments sorted by start — `[0,5]` and
`[0.5,12]` — pass the gap test but fail the 10s span cap, so the merger emits
them as two separate units that overlap (`0.5 < 5`), contradicting the claim
that the output units are always non-overlapping. -/
theorem c5_counterexample :
    mergeSegments [⟨0, 5, "a"⟩, ⟨1/2, 12, "b"⟩] = [⟨0, 5, "a"⟩, ⟨1/2, 12, "b"⟩]
    ∧ (TranscriptSegment.mk (1/2) 12 "b").start
        < (TranscriptSegment.mk 0 5 "a").endTime := by
  constructor
  · norm_num [mergeSegments, mergeLoop]
  · norm_num

/-- C5 amended: for fragment sequences ordered by start, the merger's output
is ordered by start (units may still overlap when input fragments overlap);
every fragment's text appears in exactly one merged unit, in original order
(joining the output texts with single spaces reproduces the joined input
texts); and an incoming fragment is merged into the current accumulated unit
exactly when the gap from the accumulated unit's end is below 0.3s and the
span from the accumulated unit's start is below 10s — for exactly two
fragments this is the adjacent-pair condition of the claim. -/
theorem c5_amended :
    (∀ frags : List TranscriptSegment,
      List.Sorted (fun a b : TranscriptSegment => a.start ≤ b.start) frags →
      List.Sorted (fun a b : TranscriptSegment => a.start ≤ b.start)
        (mergeSegments frags))
    ∧ (∀ frags : List TranscriptSegment,
      joinTexts ((mergeSegments frags).map (·.text))
        = joinTexts (frags.map (·.text)))
    ∧ (∀ a b : TranscriptSegment,
      mergeSegments [a, b] =
        if b.start - a.endTime < 3/10 ∧ b.endTime - a.start < 10 then
          [⟨a.start, b.endTime, a.text ++ " " ++ b.text⟩]
        else [a, b]) := by
  refine ⟨?_, ?_, ?_⟩
  · intro frags hs
    cases frags with
    | nil => simp [mergeSegments]
    | cons seg rest => exact mergeLoop_sorted rest seg hs
  · intro frags
    cases frags with
    | nil => rfl
    | cons seg rest => exact mergeLoop_texts rest seg
  · intro a b
    simp only [mergeSegments, mergeLoop]

theorem c5_amended_witness :
    List.Sorted (fun a b : TranscriptSegment => a.start ≤ b.start)
      (mergeSegments [⟨0, 1, "a"⟩, ⟨2, 3, "b"⟩]) :=
  c5_amended.1 [⟨0, 1, "a"⟩, ⟨2, 3, "b"⟩]
    (by norm_num [List.sorted_cons])

theorem ttsLoop_all_fail (synthOk : Nat → Nat → Bool) (outputDir videoId : String)
    (hfail : ∀ i a, synthOk i a = false) :
    ∀ (segments : List TranscriptSegment) (i : Nat),
      ttsLoop synthOk outputDir videoId i segments = [] := by
  intro segments
  induction segments with
  | nil => intro i; rfl
  | cons segment rest ih =>
    intro i
    simp only [ttsLoop, hfail, Bool.false_eq_true, if_false]
    split_ifs <;> exact ih (i + 1)

theorem buildSegmentsWithPaths_none (fsExists : String → Bool)
    (outputDir videoId : String) (hfs : ∀ p, fsExists p = false) :
    ∀ (segments : List TranscriptSegment) (i : Nat),
      buildSegmentsWithPaths fsExists outputDir videoId i segments = [] := by
  intro segments
  induction segments with
  | nil => intro i; rfl
  | cons seg rest ih =>
    intro i
    simp only [buildSegmentsWithPaths, hfs, Bool.false_eq_true, if_false]
    exact ih (i + 1)

/-- C8: whenever zero synthesized clips survive, stage 4 aborts before the
composite is entered — `stitchStage` yields the fatal no-usable-segments error
and neither the DubTrack nor the metadata sidecar is written. In particular,
when every synthesis call fails on both the first attempt and the retry, the
synthesis loop produces no files, so the abort fires. -/
theorem c8_no_usable_segments (outputDir videoId : String)
    (segments : List TranscriptSegment) :
    (∀ fsExists : String → Bool,
      buildSegmentsWithPaths fsExists outputDir videoId 0 segments = [] →
        stitchStage fsExists outputDir videoId segments
          = Except.error "ვერცერთი აუდიო სეგმენტი ვერ შეიქმნა."
        ∧ stage4WrittenFiles fsExists outputDir videoId segments = [])
    ∧ (∀ synthOk : Nat → Nat → Bool, (∀ i a, synthOk i a = false) →
        generateGeorgianAudio synthOk outputDir videoId segments = []
        ∧ stitchStage
            (fun p => (generateGeorgianAudio synthOk outputDir videoId segments).contains p)
            outputDir videoId segments
          = Except.error "ვერცერთი აუდიო სეგმენტი ვერ შეიქმნა."
        ∧ stage4WrittenFiles
            (fun p => (generateGeorgianAudio synthOk outputDir videoId segments).contains p)
            outputDir videoId segments = []) := by
  have habort : ∀ fsExists : String → Bool,
      buildSegmentsWithPaths fsExists outputDir videoId 0 segments = [] →
        stitchStage fsExists outputDir videoId segments
          = Except.error "ვერცერთი აუდიო სეგმენტი ვერ შეიქმნა."
        ∧ stage4WrittenFiles fsExists outputDir videoId segments = [] := by
    intro fsExists hempty
    have hstage : stitchStage fsExists outputDir videoId segments
        = Except.error "ვერცერთი აუდიო სეგმენტი ვერ შეიქმნა." := by
      simp [stitchStage, hempty]
    exact ⟨hstage, by simp [stage4WrittenFiles, hstage]⟩
  refine ⟨habort, fun synthOk hfail => ?_⟩
  have hgen : generateGeorgianAudio synthOk outputDir videoId segments = [] := by
    unfold generateGeorgianAudio
    exact ttsLoop_all_fail synthOk outputDir videoId hfail segments 0
  have hfs : ∀ p,
      (fun p => (generateGeorgianAudio synthOk outputDir videoId segments).contains p) p
        = false := by
    intro p
    rw [hgen]
    rfl
  have hempty := buildSegmentsWithPaths_none _ outputDir videoId hfs segments 0
  obtain ⟨h1, h2⟩ := habort _ hempty
  exact ⟨hgen, h1, h2⟩

theorem c8_no_usable_segments_witness :
    generateGeorgianAudio (fun _ _ => false) "out" "vid" [⟨0, 1, "hello"⟩] = []
    ∧ stitchStage
        (fun p => (generateGeorgianAudio (fun _ _ => false) "out" "vid"
            [⟨0, 1, "hello"⟩]).contains p)
        "out" "vid" [⟨0, 1, "hello"⟩]
      = Except.error "ვერცერთი აუდიო სეგმენტი ვერ შეიქმნა." := by
  have h := (c8_no_usable_segments "out" "vid" [⟨0, 1, "hello"⟩]).2
    (fun _ _ => false) (fun _ _ => rfl)
  exact ⟨h.1, h.2.1⟩
